import Mathlib

/-!
Shallow embedding of `src/vectorize_and_analyze.py` (relationship-extraction
engine over text nodes).  The embedding model (`SentenceTransformer.encode`),
the cosine kernel (`sklearn cosine_similarity`) and the TF-IDF vectorizer
(`TfidfVectorizer.fit_transform` / `get_feature_names_out`) are external
collaborators of the core; they appear here as function parameters
(`encode`, `cosine`, `fit_transform`).  Real numbers are modelled as `ℚ`.
Python string operations are modelled on their ASCII fragment (the causal
phrases and heading regexes in the source are ASCII).
-/

namespace VecAnalyze

/-- Declared node identifier: the input JSON allows a string or a number
(`{"id": <string|number>, ...}`). -/
inductive NodeId where
  | str (s : String)
  | num (n : Int)
deriving DecidableEq

/-- Raw input node record: either field may be absent (`node.get(...)` in
the source returns `None` then). -/
structure RawNode where
  id : Option NodeId
  content : Option String
deriving DecidableEq

/-- Python truthiness of the `id` field: absent and `None` are falsy, an
empty string is falsy, the number `0` is falsy. -/
def idTruthy : Option NodeId → Bool
  | none => false
  | some (NodeId.str s) => !s.isEmpty
  | some (NodeId.num n) => n != 0

/-- Python truthiness of the `content` field: absent is falsy, an empty
string is falsy. -/
def contentTruthy : Option String → Bool
  | none => false
  | some s => !s.isEmpty

/-- Rendering of an id as a string, as Python `str` does on the id field
(`str` of an `int` is its decimal form; `str(None) = "None"`). -/
def renderOptId : Option NodeId → String
  | none => "None"
  | some (NodeId.str s) => s
  | some (NodeId.num n) => toString n

/-- Node filter of `vectorize_and_find_similar`:
keep the nodes whose `content` and `id` fields are both truthy under `get`. -/
def valid_nodes (nodes : List RawNode) : List RawNode :=
  nodes.filter fun node => contentTruthy node.content && idTruthy node.id

/-- Content projection (the content field) on a valid node (the default is
never used on the filtered list, where `content` is present). -/
def nodeContent (n : RawNode) : String := n.content.getD ""

/-- The fixed causal marker phrase list `causal_phrases` of the source. -/
def causal_phrases : List String :=
  ["because", "due to", "as a result", "therefore", "thus", "consequently",
   "hence", "so that", "caused by", "resulted in", "leading to", "since"]

/-- Prefix test on character lists (Python string matching primitive). -/
def startsWithL : List Char → List Char → Bool
  | [], _ => true
  | _ :: _, [] => false
  | a :: as, b :: bs => a == b && startsWithL as bs

/-- Contiguous-substring test on character lists, the semantics of
Python `needle in haystack` for strings. -/
def containsL (needle : List Char) : List Char → Bool
  | [] => needle.isEmpty
  | b :: bs => startsWithL needle (b :: bs) || containsL needle bs

/-- The source test `phrase in content.lower()` (case-insensitive
substring occurrence; character-wise `Char.toLower` matches Python
`str.lower` on ASCII, which covers every phrase in `causal_phrases`). -/
def occursIn (phrase content : String) : Bool :=
  containsL phrase.toList (content.toList.map Char.toLower)

/-- Output record of the causal detector: `{"id": str(idx), "phrase": ...,
"context": content}`. -/
structure CausalMatch where
  id : String
  phrase : String
  context : String
deriving DecidableEq

/-- Inner loop of `detect_causal_relationships` for one `(idx, content)`
pair: one appended match per phrase of `causal_phrases` occurring in the
lowered content. -/
def causalOnContent (idx : Nat) (content : String) : List CausalMatch :=
  causal_phrases.filterMap fun phrase =>
    if occursIn phrase content then some ⟨toString idx, phrase, content⟩ else none

/-- The source function `detect_causal_relationships(contents)`:
`for idx, content in enumerate(contents): for phrase in causal_phrases: ...`. -/
def detect_causal_relationships (contents : List String) : List CausalMatch :=
  contents.enum.flatMap fun ic => causalOnContent ic.1 ic.2

/-- ASCII fragment of the Python regex class `\s` (space, tab, newline,
carriage return, vertical tab, form feed). -/
def isPySpace (c : Char) : Bool :=
  c == ' ' || c == '\t' || c == '\n' || c == '\r' || c == '\x0b' || c == '\x0c'

/-- After `\s+` has consumed at least one character, the regexes
`^\d+\.\s+.+` and `^[A-Za-z]+\.\s+.+` match the remaining characters iff
some character matchable by `.` (anything but newline) is reachable:
further characters may only be absorbed by `\s`, and the only whitespace
`.` cannot match is the newline, so the search skips newlines and succeeds
at the first non-newline character. -/
def matchTail : List Char → Bool
  | [] => false
  | c :: cs => if c == '\n' then matchTail cs else true

/-- Matching of the regex fragment `\s+.+` against a character list
(at least one whitespace character, then at least one non-newline
character, with backtracking semantics as in Python `re`). -/
def matchWsDot : List Char → Bool
  | [] => false
  | c :: cs => isPySpace c && matchTail cs

/-- Matching of the regex fragment `\.\s+.+`: a literal period, then
`\s+.+`. -/
def matchDotRest : List Char → Bool
  | [] => false
  | c :: cs => c == '.' && matchWsDot cs

/-- The first source heading regex (digits, period, whitespace, text) as a
Boolean: a maximal nonempty leading digit run (since `.` is not a digit,
backtracking inside `\d+` cannot help), then `\.\s+.+`.  `Char.isDigit`
is the ASCII fragment of Python `\d`. -/
def headingNum (s : String) : Bool :=
  !(s.toList.takeWhile Char.isDigit).isEmpty &&
    matchDotRest (s.toList.drop (s.toList.takeWhile Char.isDigit).length)

/-- The second source heading regex (letters, period, whitespace, text) as
a Boolean: a maximal nonempty leading ASCII-letter run, then `\.\s+.+`.
`Char.isAlpha` is exactly `[A-Za-z]`. -/
def headingAlpha (s : String) : Bool :=
  !(s.toList.takeWhile Char.isAlpha).isEmpty &&
    matchDotRest (s.toList.drop (s.toList.takeWhile Char.isAlpha).length)

/-- The fixed `heading_patterns` list of the source, in order. -/
def heading_patterns : List (String → Bool) :=
  [headingNum, headingAlpha]

/-- Output record of the hierarchical detector: `{"id": str(idx),
"heading": content}`. -/
structure HierarchicalMatch where
  id : String
  heading : String
deriving DecidableEq

/-- Inner loop of `detect_hierarchical_relationships` for one
`(idx, content)` pair: one appended match per pattern that matches. -/
def hierOnContent (idx : Nat) (content : String) : List HierarchicalMatch :=
  heading_patterns.filterMap fun pat =>
    if pat content then some ⟨toString idx, content⟩ else none

/-- The source function `detect_hierarchical_relationships(contents)`. -/
def detect_hierarchical_relationships (contents : List String) : List HierarchicalMatch :=
  contents.enum.flatMap fun ic => hierOnContent ic.1 ic.2

/-- Index pairs visited by the source double loop
`for i in range(n): for j in range(i+1, n)`, in visiting order. -/
def allPairs (n : Nat) : List (Nat × Nat) :=
  (List.range n).flatMap fun i =>
    (List.range n).filterMap fun j => if i < j then some (i, j) else none

/-- A double loop over `allPairs n` that appends `f i j` when it is
`some`: the shape shared by the similarity loop and the keyword loop of
the source. -/
def pairLoop {α : Type} (n : Nat) (f : Nat → Nat → Option α) : List α :=
  (allPairs n).filterMap fun ij => f ij.1 ij.2

/-- Output record of the similarity engine: `{"start_id": str(...),
"end_id": str(...), "similarity": float(sim)}`. -/
structure SimilarityPair where
  start_id : String
  end_id : String
  similarity : ℚ
deriving DecidableEq

/-- The value `cosine_similarity([embeddings[i]], [embeddings[j]])[0][0]`
of the source, with the cosine kernel abstracted as `cosine`. -/
def similarityOf {E : Type} [Inhabited E] (cosine : E → E → ℚ) (embeddings : List E)
    (i j : Nat) : ℚ :=
  cosine (embeddings.getD i default) (embeddings.getD j default)

/-- Placeholder node for out-of-range `List.getD` access (never reached
for indices below `vnodes.length`). -/
def dummyNode : RawNode := ⟨none, none⟩

/-- The similarity double loop of `vectorize_and_find_similar`: for every
`i < j < num_nodes`, emit a pair when `sim > threshold` (strict). -/
def similarPairsCalc {E : Type} [Inhabited E] (cosine : E → E → ℚ) (embeddings : List E)
    (vnodes : List RawNode) (threshold : ℚ) : List SimilarityPair :=
  pairLoop vnodes.length fun i j =>
    let sim := similarityOf cosine embeddings i j
    if threshold < sim then
      some ⟨renderOptId (vnodes.getD i dummyNode).id,
            renderOptId (vnodes.getD j dummyNode).id, sim⟩
    else none

/-- Column indices with a non-zero entry in a TF-IDF row
(`tfidf_matrix[i].nonzero()[1]` of the source, on a dense row model). -/
def nonzeroIdx (row : List ℚ) : List Nat :=
  (List.range row.length).filter fun k => row.getD k 0 != 0

/-- The set built by the source for one pair `(i, j)`:
`common_keywords = set(nonzero(i)) & set(nonzero(j))` then
`{keywords[k] for k in common_keywords if tfidf[i,k] > θ and
tfidf[j,k] > θ and keywords[k] not in stop_words}`. -/
def commonKeywordSet (rowI rowJ : List ℚ) (keywords stop_words : List String)
    (θ : ℚ) : Finset String :=
  (((nonzeroIdx rowI).filter fun k =>
      (nonzeroIdx rowJ).contains k &&
      decide (θ < rowI.getD k 0) && decide (θ < rowJ.getD k 0) &&
      !(stop_words.contains (keywords.getD k ""))).map
    fun k => keywords.getD k "").toFinset

/-- Output record of the keyword-overlap engine: `{"start_id": ...,
"end_id": ..., "keywords": list(common_keywords)}` (the Python value is a
set of strings; it is modelled as a `Finset`). -/
structure KeywordPair where
  start_id : String
  end_id : String
  keywords : Finset String
deriving DecidableEq

/-- The keyword double loop of `vectorize_and_find_similar`: for every
`i < j < num_nodes`, emit a pair when the common keyword set is
non-empty (`if common_keywords:`). -/
def keywordPairsCalc (tfidf : List (List ℚ)) (keywords stop_words : List String)
    (vnodes : List RawNode) (θ : ℚ) : List KeywordPair :=
  pairLoop vnodes.length fun i j =>
    let common := commonKeywordSet (tfidf.getD i []) (tfidf.getD j []) keywords stop_words θ
    if common ≠ ∅ then
      some ⟨renderOptId (vnodes.getD i dummyNode).id,
            renderOptId (vnodes.getD j dummyNode).id, common⟩
    else none

/-- The four relationship collections returned by
`vectorize_and_find_similar` (also the output record written by the
script surface). -/
structure AnalysisOutput where
  similar_pairs : List SimilarityPair
  keyword_pairs : List KeywordPair
  causal_pairs : List CausalMatch
  hierarchical_pairs : List HierarchicalMatch
deriving DecidableEq

/-- The source function `vectorize_and_find_similar(nodes, threshold=0.8,
keyword_threshold=0.2)`.  `encode` stands for `model.encode`, `cosine`
for the cosine kernel, `fit_transform` for the TF-IDF vectorizer
(returning the row matrix and the vocabulary `get_feature_names_out()`),
`stop_words` for the NLTK stopword list loaded at module scope. -/
def vectorize_and_find_similar {E : Type} [Inhabited E]
    (encode : List String → List E)
    (cosine : E → E → ℚ)
    (fit_transform : List String → List (List ℚ) × List String)
    (stop_words : List String)
    (nodes : List RawNode)
    (threshold keyword_threshold : ℚ) : AnalysisOutput :=
  let vnodes := valid_nodes nodes
  let contents := vnodes.map nodeContent
  let embeddings := encode contents
  let tfidf := fit_transform contents
  { similar_pairs := similarPairsCalc cosine embeddings vnodes threshold
    keyword_pairs := keywordPairsCalc tfidf.1 tfidf.2 stop_words vnodes keyword_threshold
    causal_pairs := detect_causal_relationships contents
    hierarchical_pairs := detect_hierarchical_relationships contents }

/-- Node filter as the spec words it (section 4.1): the ordered
subsequence of exactly those nodes whose content is truthy and whose id
is truthy, dropping the rest silently.  Compared against the source
filter in the claim about the node filter. -/
def specNodeFilterKeep : List RawNode → List RawNode
  | [] => []
  | n :: rest =>
    if contentTruthy n.content && idTruthy n.id then n :: specNodeFilterKeep rest
    else specNodeFilterKeep rest

/-- Keyword set for a pair as the spec words it (section 4.4): the set of
vocabulary terms whose weight is non-zero in both rows, strictly exceeds
the keyword threshold in both rows, and that are not stopwords.  Compared
against the set the source builds. -/
def specCommonKeywordSet (rowI rowJ : List ℚ) (keywords stop_words : List String)
    (θ : ℚ) : Finset String :=
  (((List.range keywords.length).filter fun k =>
      rowI.getD k 0 != 0 && rowJ.getD k 0 != 0 &&
      decide (θ < rowI.getD k 0) && decide (θ < rowJ.getD k 0) &&
      !(stop_words.contains (keywords.getD k ""))).map
    fun k => keywords.getD k "").toFinset

/-- Membership in the visited index-pair list is exactly `i < j < n`. -/
theorem mem_allPairs {n i j : Nat} : (i, j) ∈ allPairs n ↔ i < j ∧ j < n := by
  unfold allPairs
  simp only [List.mem_flatMap, List.mem_filterMap, List.mem_range]
  constructor
  · rintro ⟨a, _, b, hb, h⟩
    by_cases hab : a < b
    · simp only [if_pos hab, Option.some.injEq, Prod.mk.injEq] at h
      omega
    · simp [if_neg hab] at h
  · rintro ⟨hij, hjn⟩
    exact ⟨i, by omega, j, hjn, by simp [hij]⟩

/-- Rewriting of a filterMap guarded by a condition into filter-then-map. -/
theorem filterMapIfEq {α β : Type _} (p : α → Prop) [DecidablePred p] (g : α → β) :
    ∀ l : List α,
      (l.filterMap fun a => if p a then some (g a) else none) =
        (l.filter fun a => decide (p a)).map g
  | [] => rfl
  | a :: t => by
    by_cases h : p a <;>
      simp [List.filterMap_cons, List.filter_cons, h, filterMapIfEq p g t]

/-- The double loop visits each index pair at most once. -/
theorem allPairs_nodup (n : Nat) : (allPairs n).Nodup := by
  unfold allPairs
  rw [List.nodup_flatMap]
  constructor
  · intro i _
    rw [filterMapIfEq (fun j => i < j) (fun j => (i, j)) (List.range n)]
    exact ((List.nodup_range n).filter _).map fun a b h => (Prod.mk.injEq _ _ _ _ ▸ h).2
  · have hne : (List.range n).Pairwise (· ≠ ·) := List.nodup_range n
    refine hne.imp ?_
    intro a b hab
    intro x hxa hxb
    simp only at hxa hxb
    rw [filterMapIfEq (fun j => a < j) (fun j => (a, j)) (List.range n)] at hxa
    rw [filterMapIfEq (fun j => b < j) (fun j => (b, j)) (List.range n)] at hxb
    obtain ⟨c, _, hc⟩ := List.mem_map.mp hxa
    obtain ⟨d, _, hd⟩ := List.mem_map.mp hxb
    exact hab ((Prod.mk.injEq _ _ _ _ ▸ hc.trans hd.symm).1)

/-- Membership in a pair loop: exactly the values emitted at some
`i < j < n`. -/
theorem mem_pairLoop {α : Type} {n : Nat} {f : Nat → Nat → Option α} {x : α} :
    x ∈ pairLoop n f ↔ ∃ i j, i < j ∧ j < n ∧ f i j = some x := by
  unfold pairLoop
  simp only [List.mem_filterMap]
  constructor
  · rintro ⟨⟨i, j⟩, hij, hf⟩
    rcases mem_allPairs.mp hij with ⟨h1, h2⟩
    exact ⟨i, j, h1, h2, hf⟩
  · rintro ⟨i, j, h1, h2, hf⟩
    exact ⟨(i, j), mem_allPairs.mpr ⟨h1, h2⟩, hf⟩

/-- Lifting of a pairwise relation through filterMap. -/
theorem pairwiseFilterMapLift {α β : Type _} {S : α → α → Prop} {R : β → β → Prop}
    (f : α → Option β) {l : List α} (hl : l.Pairwise S)
    (h : ∀ a b, S a b → ∀ x, f a = some x → ∀ y, f b = some y → R x y) :
    (l.filterMap f).Pairwise R := by
  induction l with
  | nil => simp
  | cons a t ih =>
    rw [List.pairwise_cons] at hl
    obtain ⟨ha, ht⟩ := hl
    cases hf : f a with
    | none => simpa [List.filterMap_cons, hf] using ih ht
    | some x =>
      rw [List.filterMap_cons, hf]
      refine List.Pairwise.cons ?_ (ih ht)
      intro y hy
      obtain ⟨b, hb, hfb⟩ := List.mem_filterMap.mp hy
      exact h a b (ha b hb) x hf y hfb

/-- Entries of a pair loop emitted at distinct index pairs stand in any
relation guaranteed for distinct emitting pairs. -/
theorem pairLoop_pairwise {α : Type} {n : Nat} {f : Nat → Nat → Option α}
    {R : α → α → Prop}
    (h : ∀ i j i2 j2, i < j → j < n → i2 < j2 → j2 < n → (i, j) ≠ (i2, j2) →
      ∀ x, f i j = some x → ∀ y, f i2 j2 = some y → R x y) :
    (pairLoop n f).Pairwise R := by
  unfold pairLoop
  have hs : (allPairs n).Pairwise
      (fun a b => a ∈ allPairs n ∧ b ∈ allPairs n ∧ a ≠ b) := by
    refine List.Pairwise.imp_of_mem ?_ (allPairs_nodup n)
    intro a b ha hb hne
    exact ⟨ha, hb, hne⟩
  refine pairwiseFilterMapLift _ hs ?_
  rintro ⟨i, j⟩ ⟨i2, j2⟩ ⟨ha, hb, hne⟩ x hx y hy
  rcases mem_allPairs.mp ha with ⟨h1, h2⟩
  rcases mem_allPairs.mp hb with ⟨h3, h4⟩
  exact h i j i2 j2 h1 h2 h3 h4 hne x hx y hy

/-- Membership characterization of the similarity loop. -/
theorem mem_similarPairsCalc {E : Type} [Inhabited E] {cosine : E → E → ℚ}
    {embeddings : List E} {vnodes : List RawNode} {θ : ℚ} {p : SimilarityPair} :
    p ∈ similarPairsCalc cosine embeddings vnodes θ ↔
      ∃ i j, i < j ∧ j < vnodes.length ∧ θ < similarityOf cosine embeddings i j ∧
        p = ⟨renderOptId (vnodes.getD i dummyNode).id,
             renderOptId (vnodes.getD j dummyNode).id,
             similarityOf cosine embeddings i j⟩ := by
  unfold similarPairsCalc
  rw [mem_pairLoop]
  constructor
  · rintro ⟨i, j, h1, h2, hf⟩
    by_cases hθ : θ < similarityOf cosine embeddings i j
    · rw [if_pos hθ] at hf
      exact ⟨i, j, h1, h2, hθ, (Option.some.inj hf).symm⟩
    · rw [if_neg hθ] at hf
      cases hf
  · rintro ⟨i, j, h1, h2, hθ, hp⟩
    exact ⟨i, j, h1, h2, by rw [if_pos hθ, hp]⟩

/-- Membership characterization of the keyword loop. -/
theorem mem_keywordPairsCalc {tfidf : List (List ℚ)} {keywords stop_words : List String}
    {vnodes : List RawNode} {θ : ℚ} {p : KeywordPair} :
    p ∈ keywordPairsCalc tfidf keywords stop_words vnodes θ ↔
      ∃ i j, i < j ∧ j < vnodes.length ∧
        commonKeywordSet (tfidf.getD i []) (tfidf.getD j []) keywords stop_words θ ≠ ∅ ∧
        p = ⟨renderOptId (vnodes.getD i dummyNode).id,
             renderOptId (vnodes.getD j dummyNode).id,
             commonKeywordSet (tfidf.getD i []) (tfidf.getD j []) keywords stop_words θ⟩ := by
  unfold keywordPairsCalc
  rw [mem_pairLoop]
  constructor
  · rintro ⟨i, j, h1, h2, hf⟩
    by_cases hC : commonKeywordSet (tfidf.getD i []) (tfidf.getD j []) keywords stop_words θ ≠ ∅
    · rw [if_pos hC] at hf
      exact ⟨i, j, h1, h2, hC, (Option.some.inj hf).symm⟩
    · rw [if_neg hC] at hf
      cases hf
  · rintro ⟨i, j, h1, h2, hC, hp⟩
    exact ⟨i, j, h1, h2, by rw [if_pos hC, hp]⟩

/-- Enumeration with a start offset, rewritten as a loop over positions. -/
theorem enumFromFlatMapEq {β : Type} (g : Nat → String → List β) :
    ∀ (k : Nat) (l : List String),
      (l.enumFrom k).flatMap (fun ic => g ic.1 ic.2) =
        (List.range l.length).flatMap fun i => g (k + i) (l.getD i "")
  | _, [] => by simp
  | k, c :: t => by
    have ih := enumFromFlatMapEq g (k + 1) t
    have hshift : ∀ m : Nat, k + (m + 1) = (k + 1) + m := by omega
    simp only [List.enumFrom_cons, List.flatMap_cons, List.length_cons,
      List.range_succ_eq_map, List.flatMap_map]
    rw [ih]
    simp only [Function.comp_def, Nat.succ_eq_add_one, List.getD_cons_zero,
      List.getD_cons_succ, Nat.add_zero]
    congr 1
    congr 1
    funext m
    rw [hshift m]

/-- The causal detector decomposes into its per-content blocks. -/
theorem detect_causal_eq_blocks (contents : List String) :
    detect_causal_relationships contents =
      (List.range contents.length).flatMap fun i => causalOnContent i (contents.getD i "") := by
  unfold detect_causal_relationships List.enum
  have h := enumFromFlatMapEq (fun i c => causalOnContent i c) 0 contents
  simpa using h

/-- The hierarchical detector decomposes into its per-content blocks. -/
theorem detect_hier_eq_blocks (contents : List String) :
    detect_hierarchical_relationships contents =
      (List.range contents.length).flatMap fun i => hierOnContent i (contents.getD i "") := by
  unfold detect_hierarchical_relationships List.enum
  have h := enumFromFlatMapEq (fun i c => hierOnContent i c) 0 contents
  simpa using h

/-- Membership in a per-content causal block. -/
theorem mem_causalOnContent {idx : Nat} {c : String} {m : CausalMatch} :
    m ∈ causalOnContent idx c ↔
      ∃ p ∈ causal_phrases, occursIn p c = true ∧ m = ⟨toString idx, p, c⟩ := by
  unfold causalOnContent
  simp only [List.mem_filterMap]
  constructor
  · rintro ⟨p, hp, hf⟩
    by_cases ho : occursIn p c = true
    · rw [if_pos ho] at hf
      exact ⟨p, hp, ho, (Option.some.inj hf).symm⟩
    · rw [if_neg ho] at hf
      cases hf
  · rintro ⟨p, hp, ho, hm⟩
    exact ⟨p, hp, by rw [if_pos ho, hm]⟩

/-- Count of emitted matches for one phrase in one block: one when the
phrase (nowhere repeated in the phrase list) occurs, zero otherwise. -/
theorem countP_causalBlock (idx : Nat) (c q : String) :
    ∀ l : List String, l.Nodup →
      ((l.filterMap fun phrase =>
          if occursIn phrase c = true then
            some (⟨toString idx, phrase, c⟩ : CausalMatch)
          else none).countP fun m => m.phrase == q) =
        if q ∈ l ∧ occursIn q c = true then 1 else 0
  | [], _ => by simp
  | p :: t, hnd => by
    rw [List.nodup_cons] at hnd
    obtain ⟨hpt, hnd2⟩ := hnd
    have ih := countP_causalBlock idx c q t hnd2
    rw [List.filterMap_cons]
    by_cases ho : occursIn p c = true
    · rw [if_pos ho, List.countP_cons, ih]
      by_cases hpq : p = q
      · subst hpq
        have h1 : (p ∈ p :: t ∧ occursIn p c = true) := ⟨List.mem_cons_self p t, ho⟩
        rw [if_pos h1]
        have h2 : ¬(p ∈ t ∧ occursIn p c = true) := fun h => hpt h.1
        rw [if_neg h2]
        simp
      · have hbeq : ((⟨toString idx, p, c⟩ : CausalMatch).phrase == q) = false := by
          simp [hpq]
        rw [hbeq]
        have hmem : (q ∈ p :: t ∧ occursIn q c = true) ↔ (q ∈ t ∧ occursIn q c = true) := by
          constructor
          · rintro ⟨hq, hoq⟩
            rcases List.mem_cons.mp hq with h | h
            · exact absurd h.symm hpq
            · exact ⟨h, hoq⟩
          · rintro ⟨hq, hoq⟩
            exact ⟨List.mem_cons_of_mem p hq, hoq⟩
        simp only [hmem, if_pos, if_neg]
        split <;> simp
    · rw [if_neg ho, ih]
      have hmem : (q ∈ p :: t ∧ occursIn q c = true) ↔ (q ∈ t ∧ occursIn q c = true) := by
        constructor
        · rintro ⟨hq, hoq⟩
          rcases List.mem_cons.mp hq with h | h
          · subst h
            exact absurd hoq ho
          · exact ⟨h, hoq⟩
        · rintro ⟨hq, hoq⟩
          exact ⟨List.mem_cons_of_mem p hq, hoq⟩
      rw [if_congr hmem rfl rfl]

/-- The fixed phrase list repeats no phrase. -/
theorem causal_phrases_nodup : causal_phrases.Nodup := by decide

/-- An ASCII digit is not an ASCII letter. -/
theorem digit_not_alpha {c : Char} (h : c.isDigit = true) : c.isAlpha = false := by
  simp only [Char.isDigit, Bool.and_eq_true, decide_eq_true_eq, ge_iff_le] at h
  have h57 : c.val.toNat ≤ 57 := @UInt32.toNat_le_of_le c.val 57 (by decide) h.2
  cases halpha : c.isAlpha with
  | false => rfl
  | true =>
    exfalso
    simp only [Char.isAlpha, Char.isUpper, Char.isLower, Bool.or_eq_true,
      Bool.and_eq_true, decide_eq_true_eq, ge_iff_le] at halpha
    rcases halpha with ⟨h1, _⟩ | ⟨h1, _⟩
    · have h65 := @UInt32.le_toNat_of_le c.val 65 (by decide) h1
      omega
    · have h97 := @UInt32.le_toNat_of_le c.val 97 (by decide) h1
      omega

/-- The two heading regexes cannot both match: the first matched
character is a digit for one and a letter for the other. -/
theorem headingNum_alpha_exclusive {s : String} (h : headingNum s = true) :
    headingAlpha s = false := by
  unfold headingNum at h
  unfold headingAlpha
  cases hs : s.toList with
  | nil =>
    rw [hs] at h
    simp at h
  | cons c cs =>
    rw [hs] at h
    rw [List.takeWhile_cons] at h ⊢
    by_cases hd : c.isDigit = true
    · rw [digit_not_alpha hd]
      simp
    · simp only [Bool.of_not_eq_true hd, if_false] at h
      simp at h

/-- Boolean list containment agrees with membership. -/
theorem contains_true_iff {α : Type _} [BEq α] [LawfulBEq α] (l : List α) (a : α) :
    l.contains a = true ↔ a ∈ l := by
  rw [List.contains_iff_exists_mem_beq]
  constructor
  · rintro ⟨x, hx, hbeq⟩
    rwa [eq_of_beq hbeq]
  · intro h
    exact ⟨a, h, beq_self_eq_true a⟩

/-- Membership in the keyword set built by the source for one pair. -/
theorem mem_commonKeywordSet {rowI rowJ : List ℚ} {kw sw : List String} {θ : ℚ}
    {w : String} :
    w ∈ commonKeywordSet rowI rowJ kw sw θ ↔
      ∃ k, k ∈ nonzeroIdx rowI ∧ (nonzeroIdx rowJ).contains k = true ∧
        θ < rowI.getD k 0 ∧ θ < rowJ.getD k 0 ∧
        sw.contains (kw.getD k "") = false ∧ w = kw.getD k "" := by
  unfold commonKeywordSet
  rw [List.mem_toFinset, List.mem_map]
  constructor
  · rintro ⟨k, hk, hw⟩
    rw [List.mem_filter] at hk
    obtain ⟨hk1, hk2⟩ := hk
    simp only [Bool.and_eq_true, Bool.not_eq_true', decide_eq_true_eq] at hk2
    exact ⟨k, hk1, hk2.1.1.1, hk2.1.1.2, hk2.1.2, hk2.2, hw.symm⟩
  · rintro ⟨k, h1, h2, h3, h4, h5, hw⟩
    refine ⟨k, ?_, hw.symm⟩
    rw [List.mem_filter]
    refine ⟨h1, ?_⟩
    simp only [Bool.and_eq_true, Bool.not_eq_true', decide_eq_true_eq]
    exact ⟨⟨⟨h2, h3⟩, h4⟩, h5⟩

/-- Membership in a per-content hierarchical block. -/
theorem mem_hierOnContent {idx : Nat} {c : String} {m : HierarchicalMatch} :
    m ∈ hierOnContent idx c ↔
      (headingNum c = true ∨ headingAlpha c = true) ∧ m = ⟨toString idx, c⟩ := by
  unfold hierOnContent heading_patterns
  simp only [List.filterMap_cons, List.filterMap_nil]
  by_cases hn : headingNum c = true
  · rw [if_pos hn]
    by_cases ha : headingAlpha c = true
    · rw [if_pos ha]
      simp only [List.mem_cons, List.mem_singleton, List.not_mem_nil, or_false]
      constructor
      · rintro (h | h) <;> exact ⟨Or.inl hn, h⟩
      · rintro ⟨_, h⟩
        exact Or.inl h
    · rw [if_neg ha]
      simp only [List.mem_singleton]
      constructor
      · intro h
        exact ⟨Or.inl hn, h⟩
      · rintro ⟨_, h⟩
        exact h
  · rw [if_neg hn]
    by_cases ha : headingAlpha c = true
    · rw [if_pos ha]
      simp only [List.mem_singleton]
      constructor
      · intro h
        exact ⟨Or.inr ha, h⟩
      · rintro ⟨_, h⟩
        exact h
    · rw [if_neg ha]
      simp only [List.not_mem_nil, false_iff, not_and]
      intro hor
      rcases hor with h | h
      · exact absurd h hn
      · exact absurd h ha

/-- A per-content hierarchical block holds at most one match. -/
theorem hierOnContent_length_le_one (idx : Nat) (c : String) :
    (hierOnContent idx c).length ≤ 1 := by
  unfold hierOnContent heading_patterns
  simp only [List.filterMap_cons, List.filterMap_nil]
  by_cases hn : headingNum c = true
  · rw [if_pos hn, headingNum_alpha_exclusive hn]
    simp
  · rw [if_neg hn]
    by_cases ha : headingAlpha c = true
    · rw [if_pos ha]
      simp
    · rw [if_neg ha]
      simp

/-- Contents of the filtered list, read positionally. -/
theorem contents_getD {vnodes : List RawNode} {i : Nat} (hi : i < vnodes.length) :
    (vnodes.map nodeContent).getD i "" = nodeContent (vnodes.getD i dummyNode) := by
  rw [List.getD_eq_getElem _ _ (by simpa using hi), List.getD_eq_getElem _ _ hi]
  simp

/-- A positional read below the length is a member of the list. -/
theorem getD_mem_of_lt {α : Type _} {l : List α} {i : Nat} (d : α) (hi : i < l.length) :
    l.getD i d ∈ l := by
  rw [List.getD_eq_getElem _ _ hi]
  exact List.getElem_mem hi

/-- Distinct positions carry distinct rendered ids when the rendered id
list has no duplicates. -/
theorem renderOptId_inj_of_nodup {vnodes : List RawNode}
    (h : (vnodes.map fun nd => renderOptId nd.id).Nodup)
    {i j : Nat} (hi : i < vnodes.length) (hj : j < vnodes.length)
    (heq : renderOptId (vnodes.getD i dummyNode).id =
      renderOptId (vnodes.getD j dummyNode).id) : i = j := by
  have hi2 : i < (vnodes.map fun nd => renderOptId nd.id).length := by simpa using hi
  have hj2 : j < (vnodes.map fun nd => renderOptId nd.id).length := by simpa using hj
  have hmap : (vnodes.map fun nd => renderOptId nd.id)[i] =
      (vnodes.map fun nd => renderOptId nd.id)[j] := by
    rw [List.getElem_map, List.getElem_map]
    rw [List.getD_eq_getElem _ _ hi, List.getD_eq_getElem _ _ hj] at heq
    exact heq
  exact (List.Nodup.getElem_inj_iff h).mp hmap

/-- C4: for every raw node list, the node filter returns exactly the
ordered subsequence of nodes whose content field is truthy and whose id
field is truthy; it agrees with the spec-worded recursive filter, is a
sublist of the input (order preserved, dropping silent), and every kept
node satisfies both truthiness conditions.  It is a total function by
construction. -/
theorem claim_C4_node_filter (nodes : List RawNode) :
    valid_nodes nodes = specNodeFilterKeep nodes ∧
    (valid_nodes nodes).Sublist nodes ∧
    ∀ n ∈ valid_nodes nodes, contentTruthy n.content = true ∧ idTruthy n.id = true := by
  refine ⟨?_, List.filter_sublist _, ?_⟩
  · induction nodes with
    | nil => rfl
    | cons n rest ih =>
      unfold valid_nodes at ih ⊢
      rw [List.filter_cons]
      unfold specNodeFilterKeep
      by_cases h : (contentTruthy n.content && idTruthy n.id) = true
      · rw [if_pos h, if_pos h, ih]
      · rw [if_neg h, if_neg h, ih]
  · intro n hn
    rw [valid_nodes, List.mem_filter] at hn
    have h2 := hn.2
    simp only [Bool.and_eq_true] at h2
    exact h2

/-- Witness for the node-filter claim at a concrete two-node input. -/
theorem claim_C4_witness :
    valid_nodes [RawNode.mk (some (NodeId.str "a")) (some "x"),
                 RawNode.mk none (some "y")] =
      specNodeFilterKeep [RawNode.mk (some (NodeId.str "a")) (some "x"),
                          RawNode.mk none (some "y")] ∧
    contentTruthy (RawNode.mk (some (NodeId.str "a")) (some "x")).content = true ∧
    idTruthy (RawNode.mk (some (NodeId.str "a")) (some "x")).id = true := by
  have h := claim_C4_node_filter
    [RawNode.mk (some (NodeId.str "a")) (some "x"), RawNode.mk none (some "y")]
  exact ⟨h.1, h.2.2 (RawNode.mk (some (NodeId.str "a")) (some "x")) (by decide)⟩

/-- C3: the detector outputs key their `id` field by the positional index
of the filtered content list, rendered as a string (with the context or
heading being that positional content), while the two pairwise engines
key `start_id`/`end_id` by the declared node ids of the filtered list. -/
theorem claim_C3_positional_vs_declared {E : Type} [Inhabited E]
    (encode : List String → List E) (cosine : E → E → ℚ)
    (fit_transform : List String → List (List ℚ) × List String)
    (stop_words : List String) (nodes : List RawNode) (θsim θkw : ℚ) :
    let out := vectorize_and_find_similar encode cosine fit_transform stop_words nodes θsim θkw
    let vnodes := valid_nodes nodes
    (∀ m ∈ out.causal_pairs, ∃ i, i < vnodes.length ∧ m.id = toString i ∧
       m.context = nodeContent (vnodes.getD i dummyNode)) ∧
    (∀ m ∈ out.hierarchical_pairs, ∃ i, i < vnodes.length ∧ m.id = toString i ∧
       m.heading = nodeContent (vnodes.getD i dummyNode)) ∧
    (∀ p ∈ out.similar_pairs, ∃ i j, i < j ∧ j < vnodes.length ∧
       p.start_id = renderOptId (vnodes.getD i dummyNode).id ∧
       p.end_id = renderOptId (vnodes.getD j dummyNode).id) ∧
    (∀ p ∈ out.keyword_pairs, ∃ i j, i < j ∧ j < vnodes.length ∧
       p.start_id = renderOptId (vnodes.getD i dummyNode).id ∧
       p.end_id = renderOptId (vnodes.getD j dummyNode).id) := by
  intro out vnodes
  have hout : out = vectorize_and_find_similar encode cosine fit_transform stop_words
      nodes θsim θkw := rfl
  refine ⟨?_, ?_, ?_, ?_⟩
  · intro m hm
    have hc : out.causal_pairs = detect_causal_relationships (vnodes.map nodeContent) := by
      rw [hout]
      rfl
    rw [hc, detect_causal_eq_blocks] at hm
    rw [List.mem_flatMap] at hm
    obtain ⟨i, hi, hmem⟩ := hm
    rw [List.mem_range, List.length_map] at hi
    rcases mem_causalOnContent.mp hmem with ⟨p, _, _, hmeq⟩
    exact ⟨i, hi, by rw [hmeq], by rw [hmeq]; exact contents_getD hi⟩
  · intro m hm
    have hc : out.hierarchical_pairs =
        detect_hierarchical_relationships (vnodes.map nodeContent) := by
      rw [hout]
      rfl
    rw [hc, detect_hier_eq_blocks] at hm
    rw [List.mem_flatMap] at hm
    obtain ⟨i, hi, hmem⟩ := hm
    rw [List.mem_range, List.length_map] at hi
    rcases mem_hierOnContent.mp hmem with ⟨_, hmeq⟩
    exact ⟨i, hi, by rw [hmeq], by rw [hmeq]; exact contents_getD hi⟩
  · intro p hp
    have hc : out.similar_pairs =
        similarPairsCalc cosine (encode (vnodes.map nodeContent)) vnodes θsim := by
      rw [hout]
      rfl
    rw [hc] at hp
    rcases mem_similarPairsCalc.mp hp with ⟨i, j, h1, h2, _, hpe⟩
    exact ⟨i, j, h1, h2, by rw [hpe], by rw [hpe]⟩
  · intro p hp
    have hc : out.keyword_pairs =
        keywordPairsCalc (fit_transform (vnodes.map nodeContent)).1
          (fit_transform (vnodes.map nodeContent)).2 stop_words vnodes θkw := by
      rw [hout]
      rfl
    rw [hc] at hp
    rcases mem_keywordPairsCalc.mp hp with ⟨i, j, h1, h2, _, hpe⟩
    exact ⟨i, j, h1, h2, by rw [hpe], by rw [hpe]⟩

/-- Witness for the id-asymmetry claim: a concrete run whose causal match
carries the positional index "0" even though the declared id is "n7". -/
theorem claim_C3_witness :
    ∃ i, i < (valid_nodes [RawNode.mk (some (NodeId.str "n7")) (some "a because b")]).length ∧
      (⟨"0", "because", "a because b"⟩ : CausalMatch).id = toString i ∧
      (⟨"0", "because", "a because b"⟩ : CausalMatch).context =
        nodeContent ((valid_nodes
          [RawNode.mk (some (NodeId.str "n7")) (some "a because b")]).getD i dummyNode) :=
  (claim_C3_positional_vs_declared (E := Unit) (fun cs => cs.map fun _ => ())
      (fun _ _ => 0) (fun _ => ([], [])) []
      [RawNode.mk (some (NodeId.str "n7")) (some "a because b")] 0 0).1
    ⟨"0", "because", "a because b"⟩ (by decide)

/-- C7: every `start_id` or `end_id` in `similar_pairs` or
`keyword_pairs` is the string rendering of a declared id of some node of
the filtered list (hence ids of dropped nodes never appear under that
rendering, whatever the declared id type was). -/
theorem claim_C7_ids_from_filtered {E : Type} [Inhabited E]
    (encode : List String → List E) (cosine : E → E → ℚ)
    (fit_transform : List String → List (List ℚ) × List String)
    (stop_words : List String) (nodes : List RawNode) (θsim θkw : ℚ) :
    let out := vectorize_and_find_similar encode cosine fit_transform stop_words nodes θsim θkw
    (∀ p ∈ out.similar_pairs,
       (∃ nd ∈ valid_nodes nodes, p.start_id = renderOptId nd.id) ∧
       (∃ nd ∈ valid_nodes nodes, p.end_id = renderOptId nd.id)) ∧
    (∀ p ∈ out.keyword_pairs,
       (∃ nd ∈ valid_nodes nodes, p.start_id = renderOptId nd.id) ∧
       (∃ nd ∈ valid_nodes nodes, p.end_id = renderOptId nd.id)) := by
  intro out
  constructor
  · intro p hp
    have hc : out.similar_pairs =
        similarPairsCalc cosine (encode ((valid_nodes nodes).map nodeContent))
          (valid_nodes nodes) θsim := rfl
    rw [hc] at hp
    rcases mem_similarPairsCalc.mp hp with ⟨i, j, h1, h2, _, hpe⟩
    refine ⟨⟨(valid_nodes nodes).getD i dummyNode,
        getD_mem_of_lt dummyNode (by omega), by rw [hpe]⟩,
      ⟨(valid_nodes nodes).getD j dummyNode, getD_mem_of_lt dummyNode h2, by rw [hpe]⟩⟩
  · intro p hp
    have hc : out.keyword_pairs =
        keywordPairsCalc (fit_transform ((valid_nodes nodes).map nodeContent)).1
          (fit_transform ((valid_nodes nodes).map nodeContent)).2 stop_words
          (valid_nodes nodes) θkw := rfl
    rw [hc] at hp
    rcases mem_keywordPairsCalc.mp hp with ⟨i, j, h1, h2, _, hpe⟩
    refine ⟨⟨(valid_nodes nodes).getD i dummyNode,
        getD_mem_of_lt dummyNode (by omega), by rw [hpe]⟩,
      ⟨(valid_nodes nodes).getD j dummyNode, getD_mem_of_lt dummyNode h2, by rw [hpe]⟩⟩

/-- Witness for the id-provenance claim at a concrete two-node run whose
similarity pair links the declared ids "a" and "b". -/
theorem claim_C7_witness :
    (∃ nd ∈ valid_nodes [RawNode.mk (some (NodeId.str "a")) (some "x"),
        RawNode.mk (some (NodeId.str "b")) (some "y")],
      (⟨"a", "b", 1⟩ : SimilarityPair).start_id = renderOptId nd.id) ∧
    ∃ nd ∈ valid_nodes [RawNode.mk (some (NodeId.str "a")) (some "x"),
        RawNode.mk (some (NodeId.str "b")) (some "y")],
      (⟨"a", "b", 1⟩ : SimilarityPair).end_id = renderOptId nd.id :=
  (claim_C7_ids_from_filtered (E := Unit) (fun cs => cs.map fun _ => ())
      (fun _ _ => 1) (fun _ => ([], [])) []
      [RawNode.mk (some (NodeId.str "a")) (some "x"),
       RawNode.mk (some (NodeId.str "b")) (some "y")] 0 0).1
    ⟨"a", "b", 1⟩ (by decide)

/-- C6: no keyword carried by any emitted KeywordPair is a stopword. -/
theorem claim_C6_no_stopwords {E : Type} [Inhabited E]
    (encode : List String → List E) (cosine : E → E → ℚ)
    (fit_transform : List String → List (List ℚ) × List String)
    (stop_words : List String) (nodes : List RawNode) (θsim θkw : ℚ)
    (p : KeywordPair)
    (hp : p ∈ (vectorize_and_find_similar encode cosine fit_transform stop_words
      nodes θsim θkw).keyword_pairs)
    (w : String) (hw : w ∈ p.keywords) : w ∉ stop_words := by
  have hc : (vectorize_and_find_similar encode cosine fit_transform stop_words
      nodes θsim θkw).keyword_pairs =
      keywordPairsCalc (fit_transform ((valid_nodes nodes).map nodeContent)).1
        (fit_transform ((valid_nodes nodes).map nodeContent)).2 stop_words
        (valid_nodes nodes) θkw := rfl
  rw [hc] at hp
  rcases mem_keywordPairsCalc.mp hp with ⟨i, j, _, _, _, hpe⟩
  rw [hpe] at hw
  rcases mem_commonKeywordSet.mp hw with ⟨k, _, _, _, _, hns, hwk⟩
  intro hmem
  rw [hwk] at hmem
  rw [(contains_true_iff stop_words _).mpr hmem] at hns
  cases hns

/-- Witness for the stopword claim at a concrete run that emits the
keyword "demand" while the stopword list holds "the". -/
theorem claim_C6_witness :
    "demand" ∉ ["the"] :=
  claim_C6_no_stopwords (E := Unit) (fun cs => cs.map fun _ => ())
    (fun _ _ => 0) (fun _ => ([[1], [1]], ["demand"])) ["the"]
    [RawNode.mk (some (NodeId.str "a")) (some "x"),
     RawNode.mk (some (NodeId.str "b")) (some "y")] 1 0
    ⟨"a", "b", {"demand"}⟩ (by decide) "demand" (by decide)

/-- C2 as stated fails on the code: two valid nodes may share the
declared id "a", and a over-threshold similarity then yields a pair whose
`start_id` equals its `end_id`. -/
theorem claim_C2_counterexample :
    ∃ p ∈ (vectorize_and_find_similar (E := Unit) (fun cs => cs.map fun _ => ())
        (fun _ _ => 1) (fun _ => ([], [])) []
        [RawNode.mk (some (NodeId.str "a")) (some "x"),
         RawNode.mk (some (NodeId.str "a")) (some "y")] 0 0).similar_pairs,
      p.start_id = p.end_id :=
  ⟨⟨"a", "a", 1⟩, by decide, rfl⟩

/-- C2 amended: when the rendered declared ids of the filtered nodes are
pairwise distinct, `similar_pairs` has no pair with equal ids, no
duplicate unordered pair, every similarity strictly above the threshold,
and every pair arises from filtered-list indices `i < j`. -/
theorem claim_C2_amended {E : Type} [Inhabited E]
    (encode : List String → List E) (cosine : E → E → ℚ)
    (fit_transform : List String → List (List ℚ) × List String)
    (stop_words : List String) (nodes : List RawNode) (θsim θkw : ℚ)
    (hids : ((valid_nodes nodes).map fun nd => renderOptId nd.id).Nodup) :
    let out := vectorize_and_find_similar encode cosine fit_transform stop_words nodes θsim θkw
    (∀ p ∈ out.similar_pairs, p.start_id ≠ p.end_id) ∧
    out.similar_pairs.Pairwise (fun p q =>
      ¬(p.start_id = q.start_id ∧ p.end_id = q.end_id) ∧
      ¬(p.start_id = q.end_id ∧ p.end_id = q.start_id)) ∧
    (∀ p ∈ out.similar_pairs, θsim < p.similarity) ∧
    (∀ p ∈ out.similar_pairs, ∃ i j, i < j ∧ j < (valid_nodes nodes).length ∧
      p.start_id = renderOptId ((valid_nodes nodes).getD i dummyNode).id ∧
      p.end_id = renderOptId ((valid_nodes nodes).getD j dummyNode).id) := by
  intro out
  have hc : out.similar_pairs =
      similarPairsCalc cosine (encode ((valid_nodes nodes).map nodeContent))
        (valid_nodes nodes) θsim := rfl
  refine ⟨?_, ?_, ?_, ?_⟩
  · intro p hp
    rw [hc] at hp
    rcases mem_similarPairsCalc.mp hp with ⟨i, j, h1, h2, _, hpe⟩
    rw [hpe]
    intro heq
    have := renderOptId_inj_of_nodup hids (by omega) h2 heq
    omega
  · rw [hc]
    unfold similarPairsCalc
    apply pairLoop_pairwise
    intro i j i2 j2 hij hj hij2 hj2 hne x hx y hy
    have hxe : x = ⟨renderOptId ((valid_nodes nodes).getD i dummyNode).id,
        renderOptId ((valid_nodes nodes).getD j dummyNode).id,
        similarityOf cosine (encode ((valid_nodes nodes).map nodeContent)) i j⟩ := by
      by_cases hθ : θsim < similarityOf cosine
          (encode ((valid_nodes nodes).map nodeContent)) i j
      · rw [if_pos hθ] at hx
        exact (Option.some.inj hx).symm
      · rw [if_neg hθ] at hx
        cases hx
    have hye : y = ⟨renderOptId ((valid_nodes nodes).getD i2 dummyNode).id,
        renderOptId ((valid_nodes nodes).getD j2 dummyNode).id,
        similarityOf cosine (encode ((valid_nodes nodes).map nodeContent)) i2 j2⟩ := by
      by_cases hθ : θsim < similarityOf cosine
          (encode ((valid_nodes nodes).map nodeContent)) i2 j2
      · rw [if_pos hθ] at hy
        exact (Option.some.inj hy).symm
      · rw [if_neg hθ] at hy
        cases hy
    rw [hxe, hye]
    constructor
    · rintro ⟨hss, hee⟩
      have hii : i = i2 := renderOptId_inj_of_nodup hids (by omega) (by omega) hss
      have hjj : j = j2 := renderOptId_inj_of_nodup hids hj hj2 hee
      exact hne (by rw [hii, hjj])
    · rintro ⟨hse, hes⟩
      have hij3 : i = j2 := renderOptId_inj_of_nodup hids (by omega) hj2 hse
      have hji3 : j = i2 := renderOptId_inj_of_nodup hids hj (by omega) hes
      omega
  · intro p hp
    rw [hc] at hp
    rcases mem_similarPairsCalc.mp hp with ⟨i, j, _, _, hθ, hpe⟩
    rw [hpe]
    exact hθ
  · intro p hp
    rw [hc] at hp
    rcases mem_similarPairsCalc.mp hp with ⟨i, j, h1, h2, _, hpe⟩
    exact ⟨i, j, h1, h2, by rw [hpe], by rw [hpe]⟩

/-- Witness for the amended C2 at a concrete run with distinct ids "a"
and "b" and a constant cosine of 1 over threshold 0. -/
theorem claim_C2_witness :
    (⟨"a", "b", 1⟩ : SimilarityPair).start_id ≠
      (⟨"a", "b", 1⟩ : SimilarityPair).end_id :=
  (claim_C2_amended (E := Unit) (fun cs => cs.map fun _ => ())
    (fun _ _ => 1) (fun _ => ([], [])) []
    [RawNode.mk (some (NodeId.str "a")) (some "x"),
     RawNode.mk (some (NodeId.str "b")) (some "y")] 0 0 (by decide)).1
    ⟨"a", "b", 1⟩ (by decide)

/-- Membership in the non-zero column index list of a row. -/
theorem mem_nonzeroIdx {row : List ℚ} {k : Nat} :
    k ∈ nonzeroIdx row ↔ k < row.length ∧ row.getD k 0 ≠ 0 := by
  unfold nonzeroIdx
  rw [List.mem_filter, List.mem_range]
  rw [bne_iff_ne]

/-- Membership in the spec-worded keyword set. -/
theorem mem_specCommonKeywordSet {rowI rowJ : List ℚ} {kw sw : List String} {θ : ℚ}
    {w : String} :
    w ∈ specCommonKeywordSet rowI rowJ kw sw θ ↔
      ∃ k, k < kw.length ∧ rowI.getD k 0 ≠ 0 ∧ rowJ.getD k 0 ≠ 0 ∧
        θ < rowI.getD k 0 ∧ θ < rowJ.getD k 0 ∧
        sw.contains (kw.getD k "") = false ∧ w = kw.getD k "" := by
  unfold specCommonKeywordSet
  rw [List.mem_toFinset, List.mem_map]
  constructor
  · rintro ⟨k, hk, hw⟩
    rw [List.mem_filter, List.mem_range] at hk
    obtain ⟨hk1, hk2⟩ := hk
    simp only [Bool.and_eq_true, Bool.not_eq_true', decide_eq_true_eq, bne_iff_ne] at hk2
    exact ⟨k, hk1, hk2.1.1.1.1, hk2.1.1.1.2, hk2.1.1.2, hk2.1.2, hk2.2, hw.symm⟩
  · rintro ⟨k, h1, h2, h3, h4, h5, h6, hw⟩
    refine ⟨k, ?_, hw.symm⟩
    rw [List.mem_filter, List.mem_range]
    refine ⟨h1, ?_⟩
    simp only [Bool.and_eq_true, Bool.not_eq_true', decide_eq_true_eq, bne_iff_ne]
    exact ⟨⟨⟨⟨h2, h3⟩, h4⟩, h5⟩, h6⟩

/-- The set the source builds for one pair equals the spec-worded set,
under the collaborator shape contract (each row as long as the
vocabulary, or absent). -/
theorem commonKeywordSet_eq_spec {rowI rowJ : List ℚ} {kw sw : List String} {θ : ℚ}
    (hI : rowI.length = kw.length ∨ rowI = [])
    (hJ : rowJ.length = kw.length ∨ rowJ = []) :
    commonKeywordSet rowI rowJ kw sw θ = specCommonKeywordSet rowI rowJ kw sw θ := by
  apply Finset.ext
  intro w
  rw [mem_commonKeywordSet, mem_specCommonKeywordSet]
  constructor
  · rintro ⟨k, hk1, hk2, hk3, hk4, hk5, hw⟩
    rw [mem_nonzeroIdx] at hk1
    rw [contains_true_iff, mem_nonzeroIdx] at hk2
    have hkl : k < kw.length := by
      rcases hI with h | h
      · omega
      · rw [h] at hk1
        exact absurd hk1.1 (by simp)
    exact ⟨k, hkl, hk1.2, hk2.2, hk3, hk4, hk5, hw⟩
  · rintro ⟨k, hk1, hk2, hk3, hk4, hk5, hk6, hw⟩
    have hlI : k < rowI.length := by
      rcases hI with h | h
      · omega
      · rw [h] at hk2
        simp at hk2
    have hlJ : k < rowJ.length := by
      rcases hJ with h | h
      · omega
      · rw [h] at hk3
        simp at hk3
    refine ⟨k, mem_nonzeroIdx.mpr ⟨hlI, hk2⟩, ?_, hk4, hk5, hk6, hw⟩
    rw [contains_true_iff]
    exact mem_nonzeroIdx.mpr ⟨hlJ, hk3⟩

/-- C5: a KeywordPair for indices `i < j` is emitted exactly when the set
of vocabulary terms that are non-zero in both rows, strictly above the
keyword threshold in both rows, and not stopwords is non-empty, and its
`keywords` field is exactly that set of resolved term strings (under the
collaborator shape contract of one weight per vocabulary term and row). -/
theorem claim_C5_keyword_pair_iff {E : Type} [Inhabited E]
    (encode : List String → List E) (cosine : E → E → ℚ)
    (fit_transform : List String → List (List ℚ) × List String)
    (stop_words : List String) (nodes : List RawNode) (θsim θkw : ℚ)
    (halign : ∀ r ∈ (fit_transform ((valid_nodes nodes).map nodeContent)).1,
      r.length = (fit_transform ((valid_nodes nodes).map nodeContent)).2.length) :
    let out := vectorize_and_find_similar encode cosine fit_transform stop_words nodes θsim θkw
    let tfidf := (fit_transform ((valid_nodes nodes).map nodeContent)).1
    let kw := (fit_transform ((valid_nodes nodes).map nodeContent)).2
    ∀ p, p ∈ out.keyword_pairs ↔
      ∃ i j, i < j ∧ j < (valid_nodes nodes).length ∧
        specCommonKeywordSet (tfidf.getD i []) (tfidf.getD j []) kw stop_words θkw ≠ ∅ ∧
        p = ⟨renderOptId ((valid_nodes nodes).getD i dummyNode).id,
             renderOptId ((valid_nodes nodes).getD j dummyNode).id,
             specCommonKeywordSet (tfidf.getD i []) (tfidf.getD j []) kw stop_words θkw⟩ := by
  intro out tfidf kw p
  have hrow : ∀ i : Nat, (tfidf.getD i []).length = kw.length ∨ tfidf.getD i [] = [] := by
    intro i
    by_cases hi : i < tfidf.length
    · exact Or.inl (halign _ (getD_mem_of_lt [] hi))
    · exact Or.inr (List.getD_eq_default _ _ (by omega))
  have hc : out.keyword_pairs =
      keywordPairsCalc tfidf kw stop_words (valid_nodes nodes) θkw := rfl
  rw [hc]
  constructor
  · intro hp
    rcases mem_keywordPairsCalc.mp hp with ⟨i, j, h1, h2, hne, hpe⟩
    rw [commonKeywordSet_eq_spec (hrow i) (hrow j)] at hne hpe
    exact ⟨i, j, h1, h2, hne, hpe⟩
  · rintro ⟨i, j, h1, h2, hne, hpe⟩
    rw [← commonKeywordSet_eq_spec (hrow i) (hrow j)] at hne hpe
    exact mem_keywordPairsCalc.mpr ⟨i, j, h1, h2, hne, hpe⟩

/-- Witness for the keyword-pair characterization at a concrete run with
vocabulary ["demand"], both weights 1, threshold 0. -/
theorem claim_C5_witness :
    (⟨"a", "b", {"demand"}⟩ : KeywordPair) ∈
      (vectorize_and_find_similar (E := Unit) (fun cs => cs.map fun _ => ())
        (fun _ _ => 0) (fun _ => ([[1], [1]], ["demand"])) ["the"]
        [RawNode.mk (some (NodeId.str "a")) (some "x"),
         RawNode.mk (some (NodeId.str "b")) (some "y")] 1 0).keyword_pairs :=
  ((claim_C5_keyword_pair_iff (E := Unit) (fun cs => cs.map fun _ => ())
      (fun _ _ => 0) (fun _ => ([[1], [1]], ["demand"])) ["the"]
      [RawNode.mk (some (NodeId.str "a")) (some "x"),
       RawNode.mk (some (NodeId.str "b")) (some "y")] 1 0
      (by decide)) ⟨"a", "b", {"demand"}⟩).mpr
    ⟨0, 1, by decide, by decide, by decide, by decide⟩

/-- C1 as stated fails on the code: a single valid node whose content
holds a causal phrase yields a non-empty `causal_pairs` collection. -/
theorem claim_C1_counterexample :
    (valid_nodes [RawNode.mk (some (NodeId.str "a")) (some "because")]).length = 1 ∧
    (vectorize_and_find_similar (E := Unit) (fun cs => cs.map fun _ => ())
        (fun _ _ => 0) (fun _ => ([], [])) []
        [RawNode.mk (some (NodeId.str "a")) (some "because")] 0 0).causal_pairs ≠ [] := by
  exact ⟨by decide, by decide⟩

/-- C1 amended: with at most one valid node the two pairwise collections
are empty, and with zero valid nodes all four collections are empty (the
detector collections can be non-empty for one valid node). -/
theorem claim_C1_amended {E : Type} [Inhabited E]
    (encode : List String → List E) (cosine : E → E → ℚ)
    (fit_transform : List String → List (List ℚ) × List String)
    (stop_words : List String) (nodes : List RawNode) (θsim θkw : ℚ)
    (h : (valid_nodes nodes).length ≤ 1) :
    let out := vectorize_and_find_similar encode cosine fit_transform stop_words nodes θsim θkw
    out.similar_pairs = [] ∧ out.keyword_pairs = [] ∧
    ((valid_nodes nodes).length = 0 →
      out.causal_pairs = [] ∧ out.hierarchical_pairs = []) := by
  intro out
  have hap : allPairs (valid_nodes nodes).length = [] := by
    rcases Nat.le_one_iff_eq_zero_or_eq_one.mp h with h0 | h1
    · rw [h0]
      decide
    · rw [h1]
      decide
  refine ⟨?_, ?_, ?_⟩
  · have hc : out.similar_pairs =
        similarPairsCalc cosine (encode ((valid_nodes nodes).map nodeContent))
          (valid_nodes nodes) θsim := rfl
    rw [hc]
    unfold similarPairsCalc pairLoop
    rw [hap]
    rfl
  · have hc : out.keyword_pairs =
        keywordPairsCalc (fit_transform ((valid_nodes nodes).map nodeContent)).1
          (fit_transform ((valid_nodes nodes).map nodeContent)).2 stop_words
          (valid_nodes nodes) θkw := rfl
    rw [hc]
    unfold keywordPairsCalc pairLoop
    rw [hap]
    rfl
  · intro h0
    have hnil : valid_nodes nodes = [] := List.length_eq_zero.mp h0
    have hcc : out.causal_pairs =
        detect_causal_relationships ((valid_nodes nodes).map nodeContent) := rfl
    have hhh : out.hierarchical_pairs =
        detect_hierarchical_relationships ((valid_nodes nodes).map nodeContent) := rfl
    rw [hcc, hhh, hnil]
    exact ⟨rfl, rfl⟩

/-- Witness for the amended C1 at a concrete single-node input. -/
theorem claim_C1_witness :
    (vectorize_and_find_similar (E := Unit) (fun cs => cs.map fun _ => ())
        (fun _ _ => 1) (fun _ => ([[1]], ["hello"])) []
        [RawNode.mk (some (NodeId.str "b")) (some "hello")] 0 0).similar_pairs = [] ∧
    (vectorize_and_find_similar (E := Unit) (fun cs => cs.map fun _ => ())
        (fun _ _ => 1) (fun _ => ([[1]], ["hello"])) []
        [RawNode.mk (some (NodeId.str "b")) (some "hello")] 0 0).keyword_pairs = [] := by
  have h := claim_C1_amended (E := Unit) (fun cs => cs.map fun _ => ())
    (fun _ _ => 1) (fun _ => ([[1]], ["hello"])) []
    [RawNode.mk (some (NodeId.str "b")) (some "hello")] 0 0 (by decide)
  exact ⟨h.1, h.2.1⟩

/-- C8: the causal detector decomposes into per-content blocks; within a
block, each phrase of the fixed list contributes exactly one match when
it occurs (case-insensitive substring) and none otherwise, every match
carries the positional id, the full content as context, and an occurring
phrase of the fixed list, and a content with no occurring phrase yields
no match. -/
theorem claim_C8_causal_per_phrase (contents : List String) :
    (detect_causal_relationships contents =
      (List.range contents.length).flatMap fun i => causalOnContent i (contents.getD i "")) ∧
    ∀ idx c,
      (∀ q ∈ causal_phrases,
        ((causalOnContent idx c).countP fun m => m.phrase == q) =
          if occursIn q c = true then 1 else 0) ∧
      (∀ m ∈ causalOnContent idx c, m.id = toString idx ∧ m.context = c ∧
        m.phrase ∈ causal_phrases ∧ occursIn m.phrase c = true) ∧
      ((∀ p ∈ causal_phrases, occursIn p c = false) → causalOnContent idx c = []) := by
  refine ⟨detect_causal_eq_blocks contents, ?_⟩
  intro idx c
  refine ⟨?_, ?_, ?_⟩
  · intro q hq
    have h := countP_causalBlock idx c q causal_phrases causal_phrases_nodup
    unfold causalOnContent
    rw [h]
    by_cases ho : occursIn q c = true
    · rw [if_pos ⟨hq, ho⟩, if_pos ho]
    · rw [if_neg fun hh => ho hh.2, if_neg ho]
  · intro m hm
    rcases mem_causalOnContent.mp hm with ⟨p, hp, ho, hmeq⟩
    refine ⟨by rw [hmeq], by rw [hmeq], ?_, ?_⟩
    · rw [hmeq]
      exact hp
    · rw [hmeq]
      exact ho
  · intro hall
    unfold causalOnContent
    rw [List.filterMap_eq_nil_iff]
    intro p hp
    rw [if_neg]
    rw [hall p hp]
    simp

/-- Witness for the causal-count claim at the spec example content. -/
theorem claim_C8_witness :
    ((causalOnContent 0 "It failed because of a bug.").countP
      fun m => m.phrase == "because") = 1 := by
  have h := ((claim_C8_causal_per_phrase ["It failed because of a bug."]).2
    0 "It failed because of a bug.").1 "because" (by decide)
  rw [h]
  decide

/-- C9: the engine is deterministic: two runs on equal inputs and equal
collaborator functions produce collections with exactly the same
members. -/
theorem claim_C9_determinism {E : Type} [Inhabited E]
    (encode encode2 : List String → List E) (cosine cosine2 : E → E → ℚ)
    (ft ft2 : List String → List (List ℚ) × List String)
    (sw sw2 : List String) (nodes nodes2 : List RawNode) (θa θa2 θb θb2 : ℚ)
    (h1 : encode = encode2) (h2 : cosine = cosine2) (h3 : ft = ft2)
    (h4 : sw = sw2) (h5 : nodes = nodes2) (h6 : θa = θa2) (h7 : θb = θb2) :
    (∀ x, x ∈ (vectorize_and_find_similar encode cosine ft sw nodes θa θb).similar_pairs ↔
      x ∈ (vectorize_and_find_similar encode2 cosine2 ft2 sw2 nodes2 θa2 θb2).similar_pairs) ∧
    (∀ x, x ∈ (vectorize_and_find_similar encode cosine ft sw nodes θa θb).keyword_pairs ↔
      x ∈ (vectorize_and_find_similar encode2 cosine2 ft2 sw2 nodes2 θa2 θb2).keyword_pairs) ∧
    (∀ x, x ∈ (vectorize_and_find_similar encode cosine ft sw nodes θa θb).causal_pairs ↔
      x ∈ (vectorize_and_find_similar encode2 cosine2 ft2 sw2 nodes2 θa2 θb2).causal_pairs) ∧
    (∀ x, x ∈ (vectorize_and_find_similar encode cosine ft sw nodes θa θb).hierarchical_pairs ↔
      x ∈ (vectorize_and_find_similar encode2 cosine2 ft2 sw2 nodes2 θa2 θb2).hierarchical_pairs) := by
  subst h1 h2 h3 h4 h5 h6 h7
  exact ⟨fun x => Iff.rfl, fun x => Iff.rfl, fun x => Iff.rfl, fun x => Iff.rfl⟩

/-- Witness for determinism at a concrete input, both runs spelled with
the same arguments. -/
theorem claim_C9_witness :
    (⟨"0", "because", "a because b"⟩ : CausalMatch) ∈
      (vectorize_and_find_similar (E := Unit) (fun cs => cs.map fun _ => ())
        (fun _ _ => 1) (fun _ => ([[1]], ["w"])) []
        [RawNode.mk (some (NodeId.str "a")) (some "a because b")] 0 0).causal_pairs ↔
    (⟨"0", "because", "a because b"⟩ : CausalMatch) ∈
      (vectorize_and_find_similar (E := Unit) (fun cs => cs.map fun _ => ())
        (fun _ _ => 1) (fun _ => ([[1]], ["w"])) []
        [RawNode.mk (some (NodeId.str "a")) (some "a because b")] 0 0).causal_pairs :=
  (claim_C9_determinism (E := Unit) (fun cs => cs.map fun _ => ())
    (fun cs => cs.map fun _ => ()) (fun _ _ => 1) (fun _ _ => 1)
    (fun _ => ([[1]], ["w"])) (fun _ => ([[1]], ["w"])) [] []
    [RawNode.mk (some (NodeId.str "a")) (some "a because b")]
    [RawNode.mk (some (NodeId.str "a")) (some "a because b")] 0 0 0 0
    rfl rfl rfl rfl rfl rfl rfl).2.2.1 ⟨"0", "because", "a because b"⟩

/-- C10: the hierarchical detector decomposes into per-content blocks;
each block holds at most one match (the digit-headed and letter-headed
anchored patterns cannot both match one string), and an emitted match
carries the entire content as heading and the positional id. -/
theorem claim_C10_at_most_one_heading (contents : List String) :
    (detect_hierarchical_relationships contents =
      (List.range contents.length).flatMap fun i => hierOnContent i (contents.getD i "")) ∧
    ∀ idx c, (hierOnContent idx c).length ≤ 1 ∧
      ∀ m ∈ hierOnContent idx c, m.heading = c ∧ m.id = toString idx := by
  refine ⟨detect_hier_eq_blocks contents, ?_⟩
  intro idx c
  refine ⟨hierOnContent_length_le_one idx c, ?_⟩
  intro m hm
  rcases mem_hierOnContent.mp hm with ⟨_, hmeq⟩
  exact ⟨by rw [hmeq], by rw [hmeq]⟩

/-- Witness for the hierarchical claim at the spec example heading. -/
theorem claim_C10_witness :
    (hierOnContent 0 "1. Introduction").length ≤ 1 ∧
    ∀ m ∈ hierOnContent 0 "1. Introduction",
      m.heading = "1. Introduction" ∧ m.id = toString 0 :=
  (claim_C10_at_most_one_heading ["1. Introduction"]).2 0 "1. Introduction"

example : occursIn "because" "It failed BECAUSE of a bug." = true := by decide

example : occursIn "because" "Hello world" = false := by decide

example : headingNum "1. Introduction" = true := by decide

example : headingNum "1." = false := by decide

example : headingAlpha "A. Background" = true := by decide

example : headingAlpha "Hello world" = false := by decide

example :
    detect_causal_relationships ["It failed because of a bug.", "fine"] =
      [⟨"0", "because", "It failed because of a bug."⟩] := by decide

end VecAnalyze
